import Mathlib

/-!
# Verification of the rxn-availability matching engine

Shallow embedding of the compound-availability engine:

* `AvailabilityMatch` — the match record (`smiles_availability.py`);
* the matcher contract `find_matches` / `is_available` / `first_match`
  (`SmilesAvailability` base class);
* the four matcher variants (`availability_from_smiles.py`,
  `availability_from_regex.py`, `availability_from_smarts.py`,
  `availability_from_database.py` together with
  `MongoDB._availability_from_db_results` in `databases.py`);
* the combinator (`availability_combiner.py`), together with an instrumented
  event trace modelling the generator semantics (which exclusion predicates
  are evaluated, which inclusion sources are queried, what is yielded);
* the orchestrator (`is_available.py`) and the tilde-substitution wrapper
  (`utils.py`).

Modelling conventions:

* A Python callable that may raise is modelled as returning `Option` (with
  `none` for a raised exception); the standardizer is `String → Option String`.
* Regex patterns and compiled SMARTS patterns are external collaborators
  (the `re` module / RDKit); a regex is modelled by its `search` predicate
  plus its source text, a SMARTS pattern by a predicate on parsed molecules
  plus its source text, and `MolFromSmiles` by an abstract
  `parse : String → Option μ`.
* Object identity (Python `is`), used by the orchestrator to map a winning
  source back to a category, is modelled by the enumerated tag `SourceId`:
  the orchestrator constructs exactly one matcher per tag.
* Python generator laziness is modelled by `AvailabilityCombiner.trace`, the
  list of observable events a complete enumeration would produce, together
  with `takeToFirstYield`: a consumer that stops at the first yielded record
  observes exactly the prefix of the trace up to and including the first
  `yielded` event.
-/

namespace RxnAvailability

/-- Match record: human-readable `details` plus an open metadata mapping
`info`. The only values the code under study ever stores in `info` are
references to source matchers, modelled by the type parameter `σ`. -/
structure AvailabilityMatch (σ : Type) where
  details : String
  info : List (String × σ) := []
deriving DecidableEq, Repr

namespace SmilesAvailability

/-- `SmilesAvailability.find_matches`: apply the configured standardizer when
present; a standardization failure (modelled by `none`) is caught, logged and
turned into the empty sequence; otherwise delegate to the variant-specific
`_find_matches` (`inner`) on the standardized string. -/
def find_matches (standardizer : Option (String → Option String))
    (inner : String → List (AvailabilityMatch σ)) (smiles : String) :
    List (AvailabilityMatch σ) :=
  match standardizer with
  | none => inner smiles
  | some f =>
    match f smiles with
    | none => []
    | some standardized => inner standardized

/-- `SmilesAvailability.is_available`: `any(True for _ in self.find_matches(smiles))`. -/
def is_available (standardizer : Option (String → Option String))
    (inner : String → List (AvailabilityMatch σ)) (smiles : String) : Bool :=
  (find_matches standardizer inner smiles).any fun _ => true

/-- `SmilesAvailability.first_match`: `next(self.find_matches(smiles), None)`. -/
def first_match (standardizer : Option (String → Option String))
    (inner : String → List (AvailabilityMatch σ)) (smiles : String) :
    Option (AvailabilityMatch σ) :=
  (find_matches standardizer inner smiles).head?

end SmilesAvailability

namespace AvailabilityFromSmiles

/-- `AvailabilityFromSmiles._find_matches`: exact membership in the fixed
compound set. -/
def find_matches_impl (available_compounds : List String) (smiles : String) :
    List (AvailabilityMatch σ) :=
  if available_compounds.contains smiles then
    [{ details := "Matching exact SMILES, \"" ++ smiles ++ "\"." }]
  else []

end AvailabilityFromSmiles

/-- A precompiled text pattern (`re.Pattern`): its `search` behaviour on a
string, plus the original `pattern` text used in match details. -/
structure RegexPattern where
  search : String → Bool
  pattern : String

namespace AvailabilityFromRegex

/-- `AvailabilityFromRegex._find_matches`: one record per pattern whose
`search` hits, in list order. -/
def find_matches_impl (available_regexes : List RegexPattern) (smiles : String) :
    List (AvailabilityMatch σ) :=
  available_regexes.flatMap fun p =>
    if p.search smiles then
      [{ details := "Matching regex \"" ++ p.pattern ++ "\"." }]
    else []

end AvailabilityFromRegex

/-- A precompiled substructure pattern (`MolFromSmarts` result): its
substructure test on a parsed molecule of abstract type `μ`, plus the
original SMARTS text used in match details. -/
structure SmartsPattern (μ : Type) where
  test : μ → Bool
  smarts : String

namespace AvailabilityFromSmarts

/-- `AvailabilityFromSmarts._find_matches`: parse the identifier with
`MolFromSmiles` (abstract `parse`; `none` models an unparsable identifier,
which yields no matches and no error), then one record per matching
substructure pattern, in list order. -/
def find_matches_impl (parse : String → Option μ)
    (available_smarts : List (SmartsPattern μ)) (smiles : String) :
    List (AvailabilityMatch σ) :=
  match parse smiles with
  | none => []
  | some molecule =>
    available_smarts.flatMap fun p =>
      if p.test molecule then
        [{ details := "Matching SMARTS \"" ++ p.smarts ++ "\"." }]
      else []

end AvailabilityFromSmarts

namespace MongoDB

/-- `MongoDB._availability_from_db_results`. A price entry is `some q` for a
numeric price (int/float, modelled as `ℚ`) and `none` for a non-numeric
entry such as the string `"NA"`. -/
def availability_from_db_results (prices : List (Option ℚ))
    (pricing_threshold : Int) : Bool :=
  if prices.length = 0 then false
  else if pricing_threshold = 0 ∨ pricing_threshold = 1000 then true
  else
    let valid_prices := prices.filterMap id
    if valid_prices.length = 0 then false
    else
      match valid_prices.min? with
      | none => false
      | some lowest => decide (lowest < (pricing_threshold : ℚ))

end MongoDB

/-- External availability database: modelled by the price entries its
`query_by_smi` returns for each identifier. -/
structure DB where
  query_by_smi : String → List (Option ℚ)

/-- `MongoDB.availability`: collect the `price_per_amount` entries and decide
availability from them. -/
def DB.availability (db : DB) (smi : String) (pricing_threshold : Int) : Bool :=
  MongoDB.availability_from_db_results (db.query_by_smi smi) pricing_threshold

namespace AvailabilityFromDatabase

/-- `AvailabilityFromDatabase._find_matches`: at most one generic record,
yielded when the database oracle reports availability. -/
def find_matches_impl (database : DB) (pricing_threshold : Int)
    (smiles : String) : List (AvailabilityMatch σ) :=
  if database.availability smiles pricing_threshold then
    [{ details := "Found in the database." }]
  else []

end AvailabilityFromDatabase

/-- An inclusion source handed to the combinator: its identity (the σ tag
standing in for the Python object reference) and its public `find_matches`
behaviour on the combinator-standardized string. -/
structure Source (σ : Type) where
  id : σ
  findMatches : String → List (AvailabilityMatch σ)

/-- Python dict assignment `info[key] = value`: overwrite an existing entry,
otherwise append at the end (insertion order). -/
def setInfo (info : List (String × σ)) (key : String) (value : σ) :
    List (String × σ) :=
  if info.any (fun p => p.1 == key) then
    info.map fun p => if p.1 == key then (key, value) else p
  else info ++ [(key, value)]

/-- The combinator's provenance annotation: when a key is configured, set
`match.info[key] = source`. -/
def addSourceToInfo (key : Option String) (source : σ)
    (m : AvailabilityMatch σ) : AvailabilityMatch σ :=
  match key with
  | none => m
  | some k => { m with info := setInfo m.info k source }

namespace AvailabilityCombiner

/-- `AvailabilityCombiner._find_matches` (already-standardized input): the
exclusion gate (`any(excluded(smiles) for excluded in self.excluded_sources)`)
followed by the per-source enumeration with provenance annotation. -/
def find_matches_impl (excluded_sources : List (String → Bool))
    (sources : List (Source σ)) (add_source_to_match_info_key : Option String)
    (smiles : String) : List (AvailabilityMatch σ) :=
  if excluded_sources.any (fun excluded => excluded smiles) then []
  else
    sources.flatMap fun source =>
      (source.findMatches smiles).map
        (addSourceToInfo add_source_to_match_info_key source.id)

/-- Observable events of one run of the combinator's generator body. -/
inductive Event (σ : Type) where
  | exclChecked (result : Bool)
  | sourceQueried (id : σ)
  | yielded (m : AvailabilityMatch σ)
deriving DecidableEq, Repr

/-- Evaluation trace of `any(excluded(smiles) for ...)`: predicates are
evaluated in list order and evaluation stops at the first `true`. -/
def exclusionEvents (excluded_sources : List (String → Bool))
    (smiles : String) : List (Event σ) :=
  match excluded_sources with
  | [] => []
  | p :: ps =>
    if p smiles then [Event.exclChecked true]
    else Event.exclChecked false :: exclusionEvents ps smiles

/-- Full event trace of `AvailabilityCombiner._find_matches` when enumerated
to the end: first the exclusion-predicate evaluations, then — only when no
predicate fired — for each source in list order a query event followed by one
yield event per match record it produces. -/
def trace (excluded_sources : List (String → Bool)) (sources : List (Source σ))
    (add_source_to_match_info_key : Option String) (smiles : String) :
    List (Event σ) :=
  exclusionEvents excluded_sources smiles ++
    (if excluded_sources.any (fun excluded => excluded smiles) then []
     else
       sources.flatMap fun source =>
         Event.sourceQueried source.id ::
           (source.findMatches smiles).map fun m =>
             Event.yielded
               (addSourceToInfo add_source_to_match_info_key source.id m))

/-- The prefix of a generator trace observed by a consumer that stops at the
first yielded record (`next(gen, None)` / `any(True for _ in gen)`). -/
def takeToFirstYield : List (Event σ) → List (Event σ)
  | [] => []
  | Event.yielded m :: _ => [Event.yielded m]
  | e :: es => e :: takeToFirstYield es

/-- Whether an event is an inclusion-source query. -/
def Event.isSourceQueried : Event σ → Bool
  | Event.sourceQueried _ => true
  | _ => false

/-- Whether an event is a yielded match record. -/
def Event.isYielded : Event σ → Bool
  | Event.yielded _ => true
  | _ => false

/-- Whether an event is an exclusion-predicate evaluation. -/
def Event.isExclChecked : Event σ → Bool
  | Event.exclChecked _ => true
  | _ => false

end AvailabilityCombiner

/-- `wrap_standardizer_with_tilde_substitution`'s first step,
`smiles.replace("~", ".")`: the pattern and the replacement are single
characters, so the replacement acts character-wise. -/
def tildeToDot (smiles : String) : String :=
  ⟨smiles.data.map fun c => if c = '~' then '.' else c⟩

/-- `wrap_standardizer_with_tilde_substitution`: replace tildes with dots,
then apply the wrapped standardizer. -/
def wrap_standardizer_with_tilde_substitution
    (smiles_standardizer : String → Option String) : String → Option String :=
  fun smiles => smiles_standardizer (tildeToDot smiles)

/-- Identity tags for the matcher instances the orchestrator constructs in
`IsAvailable.__init__`; Python compares them with `is`, and each tag here
corresponds to exactly one constructed object. -/
inductive SourceId where
  | defaultCompounds
  | defaultRegexes
  | defaultSmarts
  | user
  | model
  | database (name : String)
  | excludedCompounds
  | excludedSubstructures
deriving DecidableEq, Repr

/-- Errors raised by the orchestrator's metadata lookup: `ValueError` from
`_source_to_category`, `KeyError` from a failed dict lookup. -/
inductive QueryError where
  | valueError
  | keyError
deriving DecidableEq, Repr

/-- The `AVAILABILITY_METADATA` ordered mapping: category key ↦ (color, label). -/
def AVAILABILITY_METADATA : List (String × String × String) :=
  [("common", "#002d9c", "Common molecule available by default"),
   ("model", "#0f62fe", "Molecule available using a model-specific database"),
   ("emolecules", "#28a30d", "Molecule commercially available on eMolecules.com"),
   ("database", "#3ddbd9", "Molecule commercially available from a database"),
   ("unavailable", "#ce4e04", "Not able to find a synthetic path"),
   ("from_file", "#f1c21b", "Molecule from file")]

namespace IsAvailable

/-- State of an `IsAvailable` orchestrator after `__init__`, parametric over
the abstract molecule type `μ` used by the SMARTS matchers.
`default_compounds` models the merged set
`default_available_compounds() | common_biochemical_byproducts() | additional_compounds_from_filepath`
(loaded from packaged resources / files, external to the engine);
`databases` models the ordered dict returned by the database
configuration step, and `standardization_function` the raw function passed to
`__init__` (before the tilde wrapper is applied). -/
structure Config (μ : Type) where
  default_compounds : List String
  default_regexes : List RegexPattern
  default_smarts : List (SmartsPattern μ)
  user_compounds : List String
  model_compounds : List String
  databases : List (String × DB)
  excluded_compounds : List String
  excluded_smarts : List (SmartsPattern μ)
  standardization_function : String → Option String
  are_materials_exclusive : Bool
  pricing_threshold : Int
  parse : String → Option μ

/-- `self.key_for_source_instance`. -/
def key_for_source_instance : String := "smilesavailability_instance"

/-- `self.standardization_function` as stored: the raw function wrapped with
the tilde substitution. -/
def standardizer (cfg : Config μ) : String → Option String :=
  wrap_standardizer_with_tilde_substitution cfg.standardization_function

/-- `self.from_default_compounds` as a combinator source (constructed with no
standardizer of its own, so its public `find_matches` is its
`_find_matches`). -/
def from_default_compounds (cfg : Config μ) : Source SourceId :=
  { id := SourceId.defaultCompounds,
    findMatches := AvailabilityFromSmiles.find_matches_impl cfg.default_compounds }

/-- `self.from_default_regexes` as a combinator source. -/
def from_default_regexes (cfg : Config μ) : Source SourceId :=
  { id := SourceId.defaultRegexes,
    findMatches := AvailabilityFromRegex.find_matches_impl cfg.default_regexes }

/-- `self.from_default_smarts` as a combinator source. -/
def from_default_smarts (cfg : Config μ) : Source SourceId :=
  { id := SourceId.defaultSmarts,
    findMatches :=
      AvailabilityFromSmarts.find_matches_impl cfg.parse cfg.default_smarts }

/-- `self.from_user` as a combinator source. -/
def from_user (cfg : Config μ) : Source SourceId :=
  { id := SourceId.user,
    findMatches := AvailabilityFromSmiles.find_matches_impl cfg.user_compounds }

/-- `self.from_model` as a combinator source. -/
def from_model (cfg : Config μ) : Source SourceId :=
  { id := SourceId.model,
    findMatches := AvailabilityFromSmiles.find_matches_impl cfg.model_compounds }

/-- `self.from_database.values()` as combinator sources, tagged with their
database names. -/
def database_sources (cfg : Config μ) : List (Source SourceId) :=
  cfg.databases.map fun nd =>
    { id := SourceId.database nd.1,
      findMatches :=
        AvailabilityFromDatabase.find_matches_impl nd.2 cfg.pricing_threshold }

/-- The default inclusion-source list of `_get_first_availability_match`:
defaults and user compounds, then — unless materials are exclusive — the
model compounds and every configured database. -/
def default_sources (cfg : Config μ) : List (Source SourceId) :=
  [from_default_compounds cfg, from_default_regexes cfg,
   from_default_smarts cfg, from_user cfg] ++
    (if cfg.are_materials_exclusive then []
     else from_model cfg :: database_sources cfg)

/-- `self.excluded_compounds(smiles)`: the exclusion matcher used as a
callable, i.e. its `is_available` (no standardizer of its own). -/
def excluded_compounds_pred (cfg : Config μ) (smiles : String) : Bool :=
  SmilesAvailability.is_available (σ := SourceId) none
    (AvailabilityFromSmiles.find_matches_impl cfg.excluded_compounds) smiles

/-- `self.excluded_substructures(smiles)`: the exclusion matcher used as a
callable. -/
def excluded_substructures_pred (cfg : Config μ) (smiles : String) : Bool :=
  SmilesAvailability.is_available (σ := SourceId) none
    (AvailabilityFromSmarts.find_matches_impl cfg.parse cfg.excluded_smarts)
    smiles

/-- The default exclusion list of `_get_first_availability_match`. -/
def default_excluded_sources (cfg : Config μ) : List (String → Bool) :=
  [excluded_compounds_pred cfg, excluded_substructures_pred cfg]

/-- `IsAvailable._get_first_availability_match` with explicit source and
exclusion lists: build a fresh combinator (provenance key
`key_for_source_instance`, standardizer the tilde-wrapped standardization
function) and take its first match. -/
def get_first_availability_match (cfg : Config μ)
    (sources : List (Source SourceId))
    (excluded_sources : List (String → Bool)) (smiles : String) :
    Option (AvailabilityMatch SourceId) :=
  SmilesAvailability.first_match (some (standardizer cfg))
    (AvailabilityCombiner.find_matches_impl excluded_sources sources
      (some key_for_source_instance))
    smiles

/-- `IsAvailable._get_first_availability_match` with both optional arguments
left at their defaults. -/
def first_availability_match (cfg : Config μ) (smiles : String) :
    Option (AvailabilityMatch SourceId) :=
  get_first_availability_match cfg (default_sources cfg)
    (default_excluded_sources cfg) smiles

/-- `IsAvailable.__call__`: whether a first availability match exists. -/
def isAvailableQuery (cfg : Config μ) (smiles : String) : Bool :=
  (first_availability_match cfg smiles).isSome

/-- `IsAvailable._source_to_category`: the four default/user sources map to
`"common"`, the model source to `"model"`, a configured database to its own
name when it is `"emolecules"` and to `"database"` otherwise; anything else
raises `ValueError`. -/
def source_to_category (cfg : Config μ) :
    SourceId → Except QueryError String
  | SourceId.defaultCompounds => Except.ok "common"
  | SourceId.defaultRegexes => Except.ok "common"
  | SourceId.defaultSmarts => Except.ok "common"
  | SourceId.user => Except.ok "common"
  | SourceId.model => Except.ok "model"
  | SourceId.database name =>
    if (cfg.databases.map Prod.fst).contains name then
      Except.ok (if name == "emolecules" then name else "database")
    else Except.error QueryError.valueError
  | SourceId.excludedCompounds => Except.error QueryError.valueError
  | SourceId.excludedSubstructures => Except.error QueryError.valueError

/-- `IsAvailable.get_availability_metadata`: `"unavailable"` when there is no
match, otherwise the category of the source recorded in the winning match's
`info`, then the `AVAILABILITY_METADATA` lookup for that key. -/
def get_availability_metadata (cfg : Config μ) (smiles : String) :
    Except QueryError (String × String) :=
  let categoryKey : Except QueryError String :=
    match first_availability_match cfg smiles with
    | none => Except.ok "unavailable"
    | some m =>
      match m.info.lookup key_for_source_instance with
      | none => Except.error QueryError.keyError
      | some source => source_to_category cfg source
  match categoryKey with
  | Except.error e => Except.error e
  | Except.ok key =>
    match AVAILABILITY_METADATA.lookup key with
    | none => Except.error QueryError.keyError
    | some metadata => Except.ok metadata

/-- The reduced inclusion-source list of `IsAvailable.is_expandable`. -/
def expandable_sources (cfg : Config μ) : List (Source SourceId) :=
  [from_default_compounds cfg, from_default_regexes cfg, from_user cfg]

/-- `IsAvailable.is_expandable`: no match in the reduced source list, with an
empty exclusion list. -/
def is_expandable (cfg : Config μ) (smiles : String) : Bool :=
  (get_first_availability_match cfg (expandable_sources cfg) [] smiles).isNone

end IsAvailable

/-! ## Supporting lemmas -/

/-- `any (fun _ => true)` detects non-emptiness. -/
theorem any_true_iff_ne_nil (l : List α) :
    (l.any fun _ => true) = true ↔ l ≠ [] := by
  cases l <;> simp

/-- `any (fun _ => true)` is determined by the head of the list. -/
theorem any_true_eq_head_isSome (l : List α) :
    (l.any fun _ => true) = l.head?.isSome := by
  cases l <;> simp

/-- A `flatMap` of singleton-or-empty blocks is a `filter` followed by a
`map`. -/
theorem flatMap_if_singleton (l : List α) (c : α → Bool) (f : α → β) :
    (l.flatMap fun a => if c a then [f a] else []) = (l.filter c).map f := by
  induction l with
  | nil => rfl
  | cons x xs ih =>
    by_cases h : c x <;> simp [List.filter_cons, h, ih]

/-- When some exclusion predicate fires, the exclusion evaluation trace is
exactly the false checks before the first firing predicate followed by the
single true check: list order with short-circuit. -/
theorem exclusionEvents_shape (σ : Type) (excluded : List (String → Bool))
    (smiles : String) (h : (excluded.any fun p => p smiles) = true) :
    AvailabilityCombiner.exclusionEvents (σ := σ) excluded smiles =
      List.replicate (excluded.findIdx fun p => p smiles)
        (AvailabilityCombiner.Event.exclChecked false) ++
        [AvailabilityCombiner.Event.exclChecked true] := by
  induction excluded with
  | nil => simp at h
  | cons p ps ih =>
    by_cases hp : p smiles
    · simp [AvailabilityCombiner.exclusionEvents, hp, List.findIdx_cons]
    · simp only [List.any_cons, hp, Bool.false_or] at h
      simp [AvailabilityCombiner.exclusionEvents, hp, List.findIdx_cons, ih h,
        List.replicate_succ]

/-- Every event of the exclusion-evaluation trace is an exclusion check. -/
theorem exclusionEvents_only_checks (σ : Type) (excluded : List (String → Bool))
    (smiles : String) :
    ∀ e ∈ AvailabilityCombiner.exclusionEvents (σ := σ) excluded smiles,
      e.isSourceQueried = false ∧ e.isYielded = false ∧
        e.isExclChecked = true := by
  induction excluded with
  | nil =>
    intro e he
    simp [AvailabilityCombiner.exclusionEvents] at he
  | cons p ps ih =>
    intro e he
    simp only [AvailabilityCombiner.exclusionEvents] at he
    by_cases hp : p smiles
    · rw [if_pos hp, List.mem_singleton] at he
      rw [he]
      exact ⟨rfl, rfl, rfl⟩
    · rw [if_neg hp, List.mem_cons] at he
      rcases he with h1 | h1
      · rw [h1]; exact ⟨rfl, rfl, rfl⟩
      · exact ih e h1

/-- Head of a `flatMap` whose blocks are empty before a first non-empty
block. -/
theorem flatMap_head_of_first_nonnil (pre post : List α) (x : α)
    (f : α → List β) (b : β) (bs : List β) (hpre : ∀ a ∈ pre, f a = [])
    (hx : f x = b :: bs) :
    ((pre ++ x :: post).flatMap f).head? = some b := by
  induction pre with
  | nil => simp [hx]
  | cons a as ih =>
    have ha : f a = [] := hpre a (List.mem_cons_self a as)
    simp only [List.cons_append, List.flatMap_cons, ha, List.nil_append]
    exact ih fun a' ha' => hpre a' (List.mem_cons_of_mem a ha')

/-- A consumer stopping at the first yield passes unchanged over a yield-free
prefix. -/
theorem takeToFirstYield_append (xs ys : List (AvailabilityCombiner.Event σ))
    (hx : ∀ e ∈ xs, e.isYielded = false) :
    AvailabilityCombiner.takeToFirstYield (xs ++ ys) =
      xs ++ AvailabilityCombiner.takeToFirstYield ys := by
  induction xs with
  | nil => rfl
  | cons e es ih =>
    have hes : ∀ e' ∈ es, e'.isYielded = false :=
      fun e' he' => hx e' (List.mem_cons_of_mem e he')
    cases e with
    | yielded m =>
      exact absurd (hx _ (List.mem_cons_self _ _)) (by simp
        [AvailabilityCombiner.Event.isYielded])
    | exclChecked r =>
      simp only [List.cons_append, AvailabilityCombiner.takeToFirstYield,
        List.append_eq]
      rw [ih hes]
    | sourceQueried i =>
      simp only [List.cons_append, AvailabilityCombiner.takeToFirstYield,
        List.append_eq]
      rw [ih hes]

/-- Sources without matches contribute exactly their query event to the
combinator trace. -/
theorem flatMap_trace_of_no_match (pre : List (Source σ)) (key : Option String)
    (smiles : String) (hpre : ∀ src ∈ pre, src.findMatches smiles = []) :
    (pre.flatMap fun source =>
        AvailabilityCombiner.Event.sourceQueried source.id ::
          (source.findMatches smiles).map fun m =>
            AvailabilityCombiner.Event.yielded
              (addSourceToInfo key source.id m)) =
      pre.map fun source =>
        AvailabilityCombiner.Event.sourceQueried source.id := by
  induction pre with
  | nil => rfl
  | cons a as ih =>
    have ha : a.findMatches smiles = [] := hpre a (List.mem_cons_self a as)
    simp only [List.flatMap_cons, ha, List.map_nil, List.map_cons,
      List.cons_append, List.nil_append, List.cons.injEq, true_and]
    exact ih fun a' ha' => hpre a' (List.mem_cons_of_mem a ha')

/-- Replacing tildes with dots is idempotent: the output contains no tilde. -/
theorem tildeToDot_idem (s : String) :
    tildeToDot (tildeToDot s) = tildeToDot s := by
  unfold tildeToDot
  show String.mk (List.map (fun c => if c = '~' then '.' else c)
      (List.map (fun c => if c = '~' then '.' else c) s.data)) =
    String.mk (List.map (fun c => if c = '~' then '.' else c) s.data)
  rw [List.map_map]
  refine congrArg String.mk (List.map_congr_left fun c _ => ?_)
  by_cases h : c = '~' <;> simp [h, Function.comp]

/-- The public `find_matches` with a standardizer depends on the identifier
only through the standardizer's output. -/
theorem find_matches_congr (f : String → Option String)
    (inner : String → List (AvailabilityMatch σ)) (s₁ s₂ : String)
    (h : f s₁ = f s₂) :
    SmilesAvailability.find_matches (some f) inner s₁ =
      SmilesAvailability.find_matches (some f) inner s₂ := by
  simp only [SmilesAvailability.find_matches, h]

/-- The orchestrator's stored standardizer is invariant under a prior tilde
substitution. -/
theorem standardizer_tildeToDot (cfg : IsAvailable.Config μ) (s : String) :
    IsAvailable.standardizer cfg (tildeToDot s) =
      IsAvailable.standardizer cfg s := by
  unfold IsAvailable.standardizer wrap_standardizer_with_tilde_substitution
  rw [tildeToDot_idem]

/-- The head of a list is a member. -/
theorem head?_mem (l : List α) (a : α) (h : l.head? = some a) : a ∈ l := by
  cases l with
  | nil => exact absurd h (by simp)
  | cons x xs =>
    rw [List.head?_cons, Option.some.injEq] at h
    rw [← h]
    exact List.mem_cons_self x xs

/-- `find_matches` with a configured standardizer, as a case split on the
standardizer's outcome. -/
theorem find_matches_some_eq (f : String → Option String)
    (inner : String → List (AvailabilityMatch σ)) (s : String) :
    SmilesAvailability.find_matches (some f) inner s =
      match f s with
      | none => []
      | some t => inner t := rfl

/-- Looking up the key just written by `setInfo` returns the written value. -/
theorem lookup_setInfo (info : List (String × σ)) (k : String) (v : σ) :
    (setInfo info k v).lookup k = some v := by
  have aux1 : ∀ l : List (String × σ), (l.any fun p => p.1 == k) = true →
      (l.map fun p => if p.1 == k then (k, v) else p).lookup k = some v := by
    intro l
    induction l with
    | nil => intro h; simp at h
    | cons a rest ih =>
      obtain ⟨a1, a2⟩ := a
      intro h
      by_cases hk : a1 = k
      · subst hk
        have hhead : (if ((a1, a2).1 == a1) = true then (a1, v) else (a1, a2)) =
            (a1, v) := by
          simp
        rw [List.map_cons, hhead]
        simp [List.lookup]
      · have hab : (a1 == k) = false := beq_eq_false_iff_ne.mpr hk
        have hka : (k == a1) = false := beq_eq_false_iff_ne.mpr (Ne.symm hk)
        rw [List.any_cons] at h
        simp only [hab, Bool.false_or] at h
        have hhead : (if ((a1, a2).1 == k) = true then (k, v) else (a1, a2)) =
            (a1, a2) := by
          simp [hab]
        rw [List.map_cons, hhead]
        simp only [List.lookup, hka]
        exact ih h
  have aux2 : ∀ l : List (String × σ), (l.any fun p => p.1 == k) = false →
      (l ++ [(k, v)]).lookup k = some v := by
    intro l
    induction l with
    | nil => simp [List.lookup]
    | cons a rest ih =>
      obtain ⟨a1, a2⟩ := a
      intro h
      rw [List.any_cons, Bool.or_eq_false_iff] at h
      have hk : a1 ≠ k := beq_eq_false_iff_ne.mp h.1
      have hka : (k == a1) = false := beq_eq_false_iff_ne.mpr (Ne.symm hk)
      simp [List.lookup, hka]
      exact ih h.2
  unfold setInfo
  by_cases h : (info.any fun p => p.1 == k) = true
  · rw [if_pos h]; exact aux1 info h
  · rw [if_neg h]
    exact aux2 info (Bool.eq_false_iff.mpr fun hc => h hc)

/-- Every record produced by the combinator (with a provenance key
configured) carries under that key the identity of the source that produced
it, and that source is one of the inclusion sources. -/
theorem mem_combiner_provenance (σ : Type) (excluded_sources : List (String → Bool))
    (sources : List (Source σ)) (k : String) (smiles : String)
    (m : AvailabilityMatch σ)
    (h : m ∈ AvailabilityCombiner.find_matches_impl excluded_sources sources
      (some k) smiles) :
    ∃ src ∈ sources, m.info.lookup k = some src.id := by
  unfold AvailabilityCombiner.find_matches_impl at h
  by_cases hex : (excluded_sources.any fun excluded => excluded smiles) = true
  · rw [if_pos hex] at h
    exact absurd h (List.not_mem_nil m)
  · rw [if_neg hex, List.mem_flatMap] at h
    obtain ⟨src, hsrc, hm⟩ := h
    rw [List.mem_map] at hm
    obtain ⟨m₀, -, hm₀⟩ := hm
    refine ⟨src, hsrc, ?_⟩
    rw [← hm₀]
    show (setInfo m₀.info k src.id).lookup k = some src.id
    exact lookup_setInfo m₀.info k src.id

/-- The winning record of an orchestrator query carries the identity of one
of the orchestrator's inclusion sources under `key_for_source_instance`. -/
theorem first_availability_match_provenance (μ : Type)
    (cfg : IsAvailable.Config μ) (smiles : String)
    (m : AvailabilityMatch SourceId)
    (h : IsAvailable.first_availability_match cfg smiles = some m) :
    ∃ src ∈ IsAvailable.default_sources cfg,
      m.info.lookup IsAvailable.key_for_source_instance = some src.id := by
  unfold IsAvailable.first_availability_match
    IsAvailable.get_first_availability_match SmilesAvailability.first_match at h
  rw [find_matches_some_eq] at h
  cases hstd : IsAvailable.standardizer cfg smiles with
  | none =>
    rw [hstd] at h
    simp at h
  | some t =>
    rw [hstd] at h
    exact mem_combiner_provenance SourceId _ _ _ t m (head?_mem _ _ h)

/-- Metadata result when there is no availability match. -/
theorem get_availability_metadata_of_none (μ : Type) (cfg : IsAvailable.Config μ)
    (smiles : String)
    (h : IsAvailable.first_availability_match cfg smiles = none) :
    IsAvailable.get_availability_metadata cfg smiles =
      Except.ok ("#ce4e04", "Not able to find a synthetic path") := by
  unfold IsAvailable.get_availability_metadata
  rw [h]
  rfl

/-- Metadata result when the winning match's provenance maps to a category
key present in the metadata table. -/
theorem get_availability_metadata_of_ok (μ : Type) (cfg : IsAvailable.Config μ)
    (smiles : String) (m : AvailabilityMatch SourceId) (src : SourceId)
    (key : String) (md : String × String)
    (h1 : IsAvailable.first_availability_match cfg smiles = some m)
    (h2 : m.info.lookup IsAvailable.key_for_source_instance = some src)
    (h3 : IsAvailable.source_to_category cfg src = Except.ok key)
    (h4 : AVAILABILITY_METADATA.lookup key = some md) :
    IsAvailable.get_availability_metadata cfg smiles = Except.ok md := by
  unfold IsAvailable.get_availability_metadata
  rw [h1]
  simp only [h2, h3, h4]

/-- Metadata lookup raises when the winning match's provenance is not one of
the orchestrator's constructed matchers. -/
theorem get_availability_metadata_of_error (μ : Type)
    (cfg : IsAvailable.Config μ) (smiles : String)
    (m : AvailabilityMatch SourceId) (src : SourceId) (e : QueryError)
    (h1 : IsAvailable.first_availability_match cfg smiles = some m)
    (h2 : m.info.lookup IsAvailable.key_for_source_instance = some src)
    (h3 : IsAvailable.source_to_category cfg src = Except.error e) :
    IsAvailable.get_availability_metadata cfg smiles = Except.error e := by
  unfold IsAvailable.get_availability_metadata
  rw [h1]
  simp only [h2, h3]

end RxnAvailability

/-! ## Claims -/

namespace RxnAvailability

/-- C3: for every matcher, `is_available` is true iff `find_matches` yields at
least one record, `first_match` is exactly the first record of
`find_matches` (`none` when the sequence is empty), and neither operation
forces evaluation of the sequence past its first element: both results are
determined by `head?` alone. -/
theorem is_available_first_match_contract (σ : Type)
    (standardizer : Option (String → Option String))
    (inner : String → List (AvailabilityMatch σ)) (smiles : String) :
    (SmilesAvailability.is_available standardizer inner smiles = true ↔
      SmilesAvailability.find_matches standardizer inner smiles ≠ []) ∧
    SmilesAvailability.first_match standardizer inner smiles =
      (SmilesAvailability.find_matches standardizer inner smiles).head? ∧
    SmilesAvailability.is_available standardizer inner smiles =
      (SmilesAvailability.find_matches standardizer inner smiles).head?.isSome := by
  refine ⟨?_, rfl, ?_⟩
  · exact any_true_iff_ne_nil _
  · exact any_true_eq_head_isSome _

/-- C4: when the configured standardization function raises on an identifier,
`find_matches` yields no records (and no exception escapes: the result is an
ordinary empty sequence), so `is_available` is false and `first_match` is
`none` — whatever the variant-specific matching step would have produced. -/
theorem standardization_failure_yields_nothing (σ : Type)
    (f : String → Option String)
    (inner : String → List (AvailabilityMatch σ)) (smiles : String)
    (h : f smiles = none) :
    SmilesAvailability.find_matches (some f) inner smiles = [] ∧
    SmilesAvailability.is_available (some f) inner smiles = false ∧
    SmilesAvailability.first_match (some f) inner smiles = none := by
  refine ⟨?_, ?_, ?_⟩ <;>
    simp [SmilesAvailability.find_matches, SmilesAvailability.is_available,
      SmilesAvailability.first_match, h]

/-- Witness for C4: a standardizer that always raises silences a matcher
whose inner step would match everything. -/
theorem standardization_failure_yields_nothing_witness :
    SmilesAvailability.find_matches (σ := Unit) (some fun _ => none)
      (fun _ => [{ details := "always" }]) "C~C" = [] ∧
    SmilesAvailability.is_available (σ := Unit) (some fun _ => none)
      (fun _ => [{ details := "always" }]) "C~C" = false ∧
    SmilesAvailability.first_match (σ := Unit) (some fun _ => none)
      (fun _ => [{ details := "always" }]) "C~C" = none :=
  standardization_failure_yields_nothing Unit (fun _ => none)
    (fun _ => [{ details := "always" }]) "C~C" rfl

/-- C9: the pattern-list matchers yield exactly one record per matching
pattern of their fixed list, in list order, each record naming the specific
pattern that matched; and the substructure matcher yields no matches (and no
error) on an identifier that does not parse. -/
theorem pattern_matchers_one_record_per_pattern (σ μ : Type)
    (available_regexes : List RegexPattern) (parse : String → Option μ)
    (available_smarts : List (SmartsPattern μ)) (smiles : String) :
    AvailabilityFromRegex.find_matches_impl (σ := σ) available_regexes smiles =
      (available_regexes.filter fun p => p.search smiles).map
        (fun p => { details := "Matching regex \"" ++ p.pattern ++ "\"." }) ∧
    (∀ molecule, parse smiles = some molecule →
      AvailabilityFromSmarts.find_matches_impl (σ := σ) parse available_smarts
          smiles =
        (available_smarts.filter fun p => p.test molecule).map
          (fun p => { details := "Matching SMARTS \"" ++ p.smarts ++ "\"." })) ∧
    (parse smiles = none →
      AvailabilityFromSmarts.find_matches_impl (σ := σ) parse available_smarts
          smiles = []) := by
  refine ⟨?_, ?_, ?_⟩
  · exact flatMap_if_singleton _ _ _
  · intro molecule hmol
    simp only [AvailabilityFromSmarts.find_matches_impl, hmol]
    exact flatMap_if_singleton _ _ _
  · intro hmol
    simp [AvailabilityFromSmarts.find_matches_impl, hmol]

/-- Witness for C9: two regexes match out of three (records in list order,
each naming its pattern), a parsing identifier with one matching SMARTS, and
an unparsable identifier yielding nothing. -/
theorem pattern_matchers_one_record_per_pattern_witness :
    (AvailabilityFromRegex.find_matches_impl (σ := Unit)
        [⟨fun s => s.length == 2, "len2"⟩, ⟨fun _ => false, "never"⟩,
         ⟨fun s => s == "CC", "isCC"⟩] "CC" =
      [{ details := "Matching regex \"len2\"." },
       { details := "Matching regex \"isCC\"." }]) ∧
    (AvailabilityFromSmarts.find_matches_impl (σ := Unit)
        (fun s => if s == "CC" then some 2 else none)
        [⟨fun n => n == 2, "twoAtoms"⟩, ⟨fun _ => false, "never"⟩] "CC" =
      [{ details := "Matching SMARTS \"twoAtoms\"." }]) ∧
    (AvailabilityFromSmarts.find_matches_impl (σ := Unit)
        (fun s => if s == "CC" then some 2 else none)
        [⟨fun n => n == 2, "twoAtoms"⟩] "not-a-smiles" = []) := by
  have h := pattern_matchers_one_record_per_pattern Unit Nat
    [⟨fun s => s.length == 2, "len2"⟩, ⟨fun _ => false, "never"⟩,
     ⟨fun s => s == "CC", "isCC"⟩]
    (fun s => if s == "CC" then some 2 else none)
    [⟨fun n => n == 2, "twoAtoms"⟩, ⟨fun _ => false, "never"⟩] "CC"
  have h2 := pattern_matchers_one_record_per_pattern Unit Nat []
    (fun s => if s == "CC" then some 2 else none)
    [⟨fun n => n == 2, "twoAtoms"⟩] "not-a-smiles"
  refine ⟨?_, ?_, ?_⟩
  · rw [h.1]; rfl
  · rw [h.2.1 2 (by rfl)]; rfl
  · exact h2.2.2 (by rfl)

/-- C8: for the price entries returned by the external database, availability
is false when the list is empty; true when the threshold is `0` or the
maximum sentinel `1000`; otherwise true iff at least one numeric price entry
is strictly below the threshold (non-numeric entries ignored, false when no
numeric entry remains); and the database matcher yields a record exactly when
the oracle reports availability. -/
theorem db_pricing_threshold_semantics (prices : List (Option ℚ))
    (pricing_threshold : Int) (db : DB) (smiles : String) :
    (prices = [] →
      MongoDB.availability_from_db_results prices pricing_threshold = false) ∧
    (prices ≠ [] → pricing_threshold = 0 ∨ pricing_threshold = 1000 →
      MongoDB.availability_from_db_results prices pricing_threshold = true) ∧
    (prices ≠ [] → pricing_threshold ≠ 0 → pricing_threshold ≠ 1000 →
      (MongoDB.availability_from_db_results prices pricing_threshold = true ↔
        ∃ q : ℚ, some q ∈ prices ∧ q < (pricing_threshold : ℚ))) ∧
    (AvailabilityFromDatabase.find_matches_impl (σ := Unit) db
        pricing_threshold smiles ≠ [] ↔
      db.availability smiles pricing_threshold = true) := by
  have mem_valid : ∀ q : ℚ, q ∈ prices.filterMap id ↔ some q ∈ prices := by
    intro q
    simp only [List.mem_filterMap, id_eq]
    constructor
    · rintro ⟨a, ha, rfl⟩; exact ha
    · intro h; exact ⟨some q, h, rfl⟩
  refine ⟨?_, ?_, ?_, ?_⟩
  · rintro rfl; rfl
  · intro hne ht
    unfold MongoDB.availability_from_db_results
    rw [if_neg (by simpa using hne), if_pos ht]
  · intro hne h0 h1000
    unfold MongoDB.availability_from_db_results
    rw [if_neg (by simpa using hne), if_neg (by rintro (h | h) <;> contradiction)]
    simp only
    by_cases hv : (prices.filterMap id).length = 0
    · rw [if_pos hv]
      rw [List.length_eq_zero] at hv
      constructor
      · intro h; exact absurd h (by simp)
      · rintro ⟨q, hq, -⟩
        rw [← mem_valid, hv] at hq
        exact absurd hq (List.not_mem_nil q)
    · rw [if_neg hv]
      obtain ⟨lowest, hmin⟩ : ∃ m, (prices.filterMap id).min? = some m := by
        cases h : (prices.filterMap id).min? with
        | none =>
          rw [List.min?_eq_none_iff] at h
          exact absurd (by rw [h]; rfl) hv
        | some m => exact ⟨m, rfl⟩
      rw [hmin]
      simp only [decide_eq_true_eq]
      constructor
      · intro hlt
        exact ⟨lowest, (mem_valid lowest).mp (List.min?_mem min_choice hmin), hlt⟩
      · rintro ⟨q, hq, hqlt⟩
        have hle : lowest ≤ q :=
          (List.le_min?_iff (fun _ _ _ => le_min_iff) hmin).mp le_rfl q
            ((mem_valid q).mpr hq)
        exact lt_of_le_of_lt hle hqlt
  · by_cases h : db.availability smiles pricing_threshold <;>
      simp [AvailabilityFromDatabase.find_matches_impl, h]

/-- Witness for C8: with price entries `[NA, 2]`, the compound is available
at threshold 3 (a numeric price below the threshold) and at threshold 0 (no
filtering). -/
theorem db_pricing_threshold_semantics_witness :
    MongoDB.availability_from_db_results [none, some 2] 3 = true ∧
    MongoDB.availability_from_db_results [none, some 2] 0 = true :=
  ⟨((db_pricing_threshold_semantics [none, some 2] 3 ⟨fun _ => []⟩ "C").2.2.1
      (List.cons_ne_nil _ _) (by decide) (by decide)).mpr
      ⟨2, by simp, by norm_num⟩,
   (db_pricing_threshold_semantics [none, some 2] 0 ⟨fun _ => []⟩ "C").2.1
      (List.cons_ne_nil _ _) (Or.inl rfl)⟩

/-- C1: for every combinator, if any exclusion predicate is true for the
(combinator-)standardized identifier, then `_find_matches` yields no records
(also through the public `find_matches` for any standardizer producing that
identifier), no inclusion source is queried and nothing is yielded — even if
an inclusion source would match; the exclusion predicates are evaluated in
list order with short-circuit at the first true one, and for every
identifier all exclusion checks happen before any inclusion source is
considered. -/
theorem combiner_exclusion_gate (σ : Type)
    (excluded_sources : List (String → Bool)) (sources : List (Source σ))
    (key : Option String) (smiles : String)
    (h : (excluded_sources.any fun excluded => excluded smiles) = true) :
    AvailabilityCombiner.find_matches_impl excluded_sources sources key
        smiles = [] ∧
    (∀ (std : String → Option String) (s₀ : String), std s₀ = some smiles →
      SmilesAvailability.find_matches (some std)
        (AvailabilityCombiner.find_matches_impl excluded_sources sources key)
        s₀ = []) ∧
    AvailabilityCombiner.trace excluded_sources sources key smiles =
      List.replicate (excluded_sources.findIdx fun excluded => excluded smiles)
        (AvailabilityCombiner.Event.exclChecked false) ++
        [AvailabilityCombiner.Event.exclChecked true] ∧
    (∀ e ∈ AvailabilityCombiner.trace excluded_sources sources key smiles,
      e.isSourceQueried = false ∧ e.isYielded = false) ∧
    (∀ s' : String, ∃ rest : List (AvailabilityCombiner.Event σ),
      AvailabilityCombiner.trace excluded_sources sources key s' =
        AvailabilityCombiner.exclusionEvents excluded_sources s' ++ rest ∧
        ∀ e ∈ rest, e.isExclChecked = false) := by
  have htrace : AvailabilityCombiner.trace excluded_sources sources key smiles =
      AvailabilityCombiner.exclusionEvents excluded_sources smiles := by
    simp [AvailabilityCombiner.trace, h]
  refine ⟨?_, ?_, ?_, ?_, ?_⟩
  · simp [AvailabilityCombiner.find_matches_impl, h]
  · intro std s₀ hstd
    simp [SmilesAvailability.find_matches, hstd,
      AvailabilityCombiner.find_matches_impl, h]
  · rw [htrace]
    exact exclusionEvents_shape σ excluded_sources smiles h
  · intro e he
    rw [htrace] at he
    exact ⟨(exclusionEvents_only_checks σ excluded_sources smiles e he).1,
      (exclusionEvents_only_checks σ excluded_sources smiles e he).2.1⟩
  · intro s'
    refine ⟨_, rfl, ?_⟩
    intro e he
    by_cases hex : (excluded_sources.any fun excluded => excluded s') = true
    · rw [if_pos hex] at he
      exact absurd he (List.not_mem_nil e)
    · rw [if_neg hex] at he
      rw [List.mem_flatMap] at he
      obtain ⟨src, -, hmem⟩ := he
      rw [List.mem_cons] at hmem
      cases hmem with
      | inl h1 => rw [h1]; rfl
      | inr h1 =>
        rw [List.mem_map] at h1
        obtain ⟨m, -, h2⟩ := h1
        rw [← h2]; rfl

/-- Witness for C1: a single exclusion predicate rejecting `"CO"` silences a
combinator whose only inclusion source would match everything; the trace
holds the single exclusion check and nothing else. -/
theorem combiner_exclusion_gate_witness :
    AvailabilityCombiner.find_matches_impl (σ := Unit)
        [fun s => s == "CO"]
        [{ id := (), findMatches := fun s => [{ details := s }] }]
        (some "k") "CO" = [] ∧
    AvailabilityCombiner.trace (σ := Unit) [fun s => s == "CO"]
        [{ id := (), findMatches := fun s => [{ details := s }] }]
        (some "k") "CO" =
      [AvailabilityCombiner.Event.exclChecked true] := by
  have h := combiner_exclusion_gate Unit [fun s => s == "CO"]
    [{ id := (), findMatches := fun s => [{ details := s }] }]
    (some "k") "CO" (by decide)
  exact ⟨h.1, h.2.2.1⟩

/-- C2: for every combinator whose exclusion gate does not fire, when the
inclusion sources before `srcM` produce no match and `srcM` produces a first
record `m`, the combinator's first match is exactly `m` annotated with
`srcM`'s provenance (also through the public `first_match`), even though
later sources may match; and the trace prefix observed by a consumer that
stops at the first yielded record holds query events for precisely the
non-matching earlier sources and `srcM` itself — the sources after the first
matching one are never queried. -/
theorem combiner_priority_order (σ : Type)
    (excluded_sources : List (String → Bool)) (pre post : List (Source σ))
    (srcM : Source σ) (key : Option String) (smiles : String)
    (m : AvailabilityMatch σ) (ms : List (AvailabilityMatch σ))
    (hexcl : (excluded_sources.any fun excluded => excluded smiles) = false)
    (hpre : ∀ src ∈ pre, src.findMatches smiles = [])
    (hm : srcM.findMatches smiles = m :: ms) :
    (AvailabilityCombiner.find_matches_impl excluded_sources
        (pre ++ srcM :: post) key smiles).head? =
      some (addSourceToInfo key srcM.id m) ∧
    (∀ (std : String → Option String) (s₀ : String), std s₀ = some smiles →
      SmilesAvailability.first_match (some std)
        (AvailabilityCombiner.find_matches_impl excluded_sources
          (pre ++ srcM :: post) key) s₀ =
        some (addSourceToInfo key srcM.id m)) ∧
    AvailabilityCombiner.takeToFirstYield
        (AvailabilityCombiner.trace excluded_sources (pre ++ srcM :: post) key
          smiles) =
      AvailabilityCombiner.exclusionEvents excluded_sources smiles ++
        (pre.map fun src => AvailabilityCombiner.Event.sourceQueried src.id) ++
        [AvailabilityCombiner.Event.sourceQueried srcM.id,
         AvailabilityCombiner.Event.yielded (addSourceToInfo key srcM.id m)] := by
  have hfind : AvailabilityCombiner.find_matches_impl excluded_sources
      (pre ++ srcM :: post) key smiles =
      (pre ++ srcM :: post).flatMap fun source =>
        (source.findMatches smiles).map (addSourceToInfo key source.id) := by
    simp [AvailabilityCombiner.find_matches_impl, hexcl]
  have hhead : (AvailabilityCombiner.find_matches_impl excluded_sources
      (pre ++ srcM :: post) key smiles).head? =
      some (addSourceToInfo key srcM.id m) := by
    rw [hfind]
    exact flatMap_head_of_first_nonnil pre post srcM _ _ _
      (fun a ha => by rw [hpre a ha]; rfl) (by rw [hm]; rfl)
  refine ⟨hhead, ?_, ?_⟩
  · intro std s₀ hstd
    rw [SmilesAvailability.first_match, SmilesAvailability.find_matches, hstd]
    exact hhead
  · have htrace : AvailabilityCombiner.trace excluded_sources
        (pre ++ srcM :: post) key smiles =
        AvailabilityCombiner.exclusionEvents excluded_sources smiles ++
          ((pre.map fun src => AvailabilityCombiner.Event.sourceQueried src.id) ++
            (AvailabilityCombiner.Event.sourceQueried srcM.id ::
              AvailabilityCombiner.Event.yielded (addSourceToInfo key srcM.id m) ::
                ((ms.map fun m' => AvailabilityCombiner.Event.yielded
                    (addSourceToInfo key srcM.id m')) ++
                  post.flatMap fun source =>
                    AvailabilityCombiner.Event.sourceQueried source.id ::
                      (source.findMatches smiles).map fun m' =>
                        AvailabilityCombiner.Event.yielded
                          (addSourceToInfo key source.id m')))) := by
      rw [AvailabilityCombiner.trace, if_neg (by simp [hexcl])]
      rw [List.flatMap_append, List.flatMap_cons,
        flatMap_trace_of_no_match pre key smiles hpre, hm]
      simp [List.append_assoc]
    rw [htrace,
      takeToFirstYield_append _ _
        (fun e he => (exclusionEvents_only_checks σ excluded_sources smiles
          e he).2.1),
      takeToFirstYield_append _ _ (fun e he => by
        rw [List.mem_map] at he
        obtain ⟨src, -, h1⟩ := he
        rw [← h1]
        rfl)]
    simp [AvailabilityCombiner.takeToFirstYield, List.append_assoc]

/-- Witness for C2: sources `[A, B, C]` where `A` misses and both `B` and `C`
would match `"CCO"`: the first match is `B`'s record annotated with `B`, and
the consumed trace queries only `A` and `B`. -/
theorem combiner_priority_order_witness :
    (AvailabilityCombiner.find_matches_impl (σ := String) []
        [⟨"A", fun _ => []⟩,
         ⟨"B", fun s => [{ details := "B hit " ++ s }]⟩,
         ⟨"C", fun s => [{ details := "C hit " ++ s }]⟩]
        (some "src") "CCO").head? =
      some { details := "B hit CCO", info := [("src", "B")] } ∧
    AvailabilityCombiner.takeToFirstYield
        (AvailabilityCombiner.trace (σ := String) []
          [⟨"A", fun _ => []⟩,
           ⟨"B", fun s => [{ details := "B hit " ++ s }]⟩,
           ⟨"C", fun s => [{ details := "C hit " ++ s }]⟩]
          (some "src") "CCO") =
      [AvailabilityCombiner.Event.sourceQueried "A",
       AvailabilityCombiner.Event.sourceQueried "B",
       AvailabilityCombiner.Event.yielded
         { details := "B hit CCO", info := [("src", "B")] }] := by
  have h := combiner_priority_order String [] [⟨"A", fun _ => []⟩]
    [⟨"C", fun s => [{ details := "C hit " ++ s }]⟩]
    ⟨"B", fun s => [{ details := "B hit " ++ s }]⟩ (some "src") "CCO"
    { details := "B hit CCO" } [] rfl
    (by intro src hsrc; rw [List.mem_singleton] at hsrc; rw [hsrc]) rfl
  exact ⟨h.1, h.2.2⟩

/-- C10: the orchestrator-level standardization first replaces every tilde
with a dot and only then applies the configured standardization function; as
a consequence each orchestrator query (`__call__`, `get_availability_metadata`
and `is_expandable`) gives equal results on an identifier and on that
identifier with tildes replaced by dots. -/
theorem tilde_substitution_invariance (μ : Type) (cfg : IsAvailable.Config μ)
    (smiles : String) :
    (IsAvailable.standardizer cfg smiles =
      cfg.standardization_function (tildeToDot smiles)) ∧
    IsAvailable.isAvailableQuery cfg (tildeToDot smiles) =
      IsAvailable.isAvailableQuery cfg smiles ∧
    IsAvailable.get_availability_metadata cfg (tildeToDot smiles) =
      IsAvailable.get_availability_metadata cfg smiles ∧
    IsAvailable.is_expandable cfg (tildeToDot smiles) =
      IsAvailable.is_expandable cfg smiles := by
  have hfam : ∀ (sources : List (Source SourceId))
      (excluded : List (String → Bool)),
      IsAvailable.get_first_availability_match cfg sources excluded
          (tildeToDot smiles) =
        IsAvailable.get_first_availability_match cfg sources excluded smiles := by
    intro sources excluded
    unfold IsAvailable.get_first_availability_match SmilesAvailability.first_match
    rw [find_matches_congr _ _ _ _ (standardizer_tildeToDot cfg smiles)]
  have h1 : IsAvailable.first_availability_match cfg (tildeToDot smiles) =
      IsAvailable.first_availability_match cfg smiles := hfam _ _
  refine ⟨rfl, ?_, ?_, ?_⟩
  · unfold IsAvailable.isAvailableQuery
    rw [h1]
  · unfold IsAvailable.get_availability_metadata
    rw [h1]
  · unfold IsAvailable.is_expandable
    rw [hfam _ _]

/-- C7: with `are_materials_exclusive = true` the full-query inclusion list
is exactly the default compounds, default regexes, default substructures and
user compounds — omitting the model matcher and every external database
matcher — while with `are_materials_exclusive = false` it additionally holds
the model matcher and every database matcher, in that priority order;
consequently, with the flag set, `__call__` and `get_availability_metadata`
do not depend on the model compounds, the configured databases or the
pricing threshold. -/
theorem materials_exclusive_source_list (μ : Type) (cfg : IsAvailable.Config μ)
    (smiles : String) :
    (cfg.are_materials_exclusive = true →
      IsAvailable.default_sources cfg =
        [IsAvailable.from_default_compounds cfg,
         IsAvailable.from_default_regexes cfg,
         IsAvailable.from_default_smarts cfg, IsAvailable.from_user cfg]) ∧
    (cfg.are_materials_exclusive = false →
      IsAvailable.default_sources cfg =
        [IsAvailable.from_default_compounds cfg,
         IsAvailable.from_default_regexes cfg,
         IsAvailable.from_default_smarts cfg, IsAvailable.from_user cfg,
         IsAvailable.from_model cfg] ++ IsAvailable.database_sources cfg) ∧
    (∀ (dc : List String) (dr : List RegexPattern) (ds : List (SmartsPattern μ))
        (u : List String) (mc₁ mc₂ : List String)
        (dbs₁ dbs₂ : List (String × DB)) (ec : List String)
        (es : List (SmartsPattern μ)) (std : String → Option String)
        (pt₁ pt₂ : Int) (parse : String → Option μ),
      IsAvailable.isAvailableQuery
          ⟨dc, dr, ds, u, mc₁, dbs₁, ec, es, std, true, pt₁, parse⟩ smiles =
        IsAvailable.isAvailableQuery
          ⟨dc, dr, ds, u, mc₂, dbs₂, ec, es, std, true, pt₂, parse⟩ smiles ∧
      IsAvailable.get_availability_metadata
          ⟨dc, dr, ds, u, mc₁, dbs₁, ec, es, std, true, pt₁, parse⟩ smiles =
        IsAvailable.get_availability_metadata
          ⟨dc, dr, ds, u, mc₂, dbs₂, ec, es, std, true, pt₂, parse⟩ smiles) := by
  refine ⟨?_, ?_, ?_⟩
  · intro h
    unfold IsAvailable.default_sources
    rw [h]
    rfl
  · intro h
    unfold IsAvailable.default_sources
    rw [h]
    rfl
  · intro dc dr ds u mc₁ mc₂ dbs₁ dbs₂ ec es std pt₁ pt₂ parse
    set c₁ : IsAvailable.Config μ :=
      ⟨dc, dr, ds, u, mc₁, dbs₁, ec, es, std, true, pt₁, parse⟩ with hc₁
    set c₂ : IsAvailable.Config μ :=
      ⟨dc, dr, ds, u, mc₂, dbs₂, ec, es, std, true, pt₂, parse⟩ with hc₂
    have hfam : IsAvailable.first_availability_match c₁ smiles =
        IsAvailable.first_availability_match c₂ smiles := rfl
    refine ⟨?_, ?_⟩
    · unfold IsAvailable.isAvailableQuery
      rw [hfam]
    · cases hmatch : IsAvailable.first_availability_match c₁ smiles with
      | none =>
        have hmatch₂ : IsAvailable.first_availability_match c₂ smiles = none :=
          hfam ▸ hmatch
        rw [get_availability_metadata_of_none μ c₁ smiles hmatch,
          get_availability_metadata_of_none μ c₂ smiles hmatch₂]
      | some m =>
        have hmatch₂ : IsAvailable.first_availability_match c₂ smiles = some m :=
          hfam ▸ hmatch
        obtain ⟨src, hsrc, hlookup⟩ :=
          first_availability_match_provenance μ c₁ smiles m hmatch
        have hsources : IsAvailable.default_sources c₁ =
            [IsAvailable.from_default_compounds c₁,
             IsAvailable.from_default_regexes c₁,
             IsAvailable.from_default_smarts c₁, IsAvailable.from_user c₁] := rfl
        rw [hsources] at hsrc
        simp only [List.mem_cons, List.not_mem_nil, or_false] at hsrc
        have hcommon : IsAvailable.source_to_category c₁ src.id =
              Except.ok "common" ∧
            IsAvailable.source_to_category c₂ src.id = Except.ok "common" := by
          rcases hsrc with h1 | h1 | h1 | h1 <;> (rw [h1]; exact ⟨rfl, rfl⟩)
        rw [get_availability_metadata_of_ok μ c₁ smiles m src.id "common"
            ("#002d9c", "Common molecule available by default") hmatch hlookup
            hcommon.1 rfl,
          get_availability_metadata_of_ok μ c₂ smiles m src.id "common"
            ("#002d9c", "Common molecule available by default") hmatch₂ hlookup
            hcommon.2 rfl]

/-- Witness for C7: two orchestrators with the exclusivity flag set,
differing only in model compounds and databases (one of which would match),
produce the same source list, availability answer and metadata. -/
theorem materials_exclusive_source_list_witness :
    (IsAvailable.default_sources
        (⟨["CCO"], [], [], [], ["CC"], [], [], [], some, true, 0,
            fun _ => some 0⟩ :
          IsAvailable.Config Nat) =
      [IsAvailable.from_default_compounds
         ⟨["CCO"], [], [], [], ["CC"], [], [], [], some, true, 0,
           fun _ => some 0⟩,
       IsAvailable.from_default_regexes
         ⟨["CCO"], [], [], [], ["CC"], [], [], [], some, true, 0,
           fun _ => some 0⟩,
       IsAvailable.from_default_smarts
         ⟨["CCO"], [], [], [], ["CC"], [], [], [], some, true, 0,
           fun _ => some 0⟩,
       IsAvailable.from_user
         ⟨["CCO"], [], [], [], ["CC"], [], [], [], some, true, 0,
           fun _ => some 0⟩]) ∧
    IsAvailable.isAvailableQuery
        (⟨["CCO"], [], [], [], ["CC"], [], [], [], some, true, 0,
            fun _ => some 0⟩ :
          IsAvailable.Config Nat) "CC" =
      IsAvailable.isAvailableQuery
        (⟨["CCO"], [], [], [], [], [⟨"emolecules", ⟨fun _ => [some 1]⟩⟩], [],
          [], some, true, 5, fun _ => some 0⟩ : IsAvailable.Config Nat)
        "CC" := by
  have h := materials_exclusive_source_list Nat
    (⟨["CCO"], [], [], [], ["CC"], [], [], [], some, true, 0,
        fun _ => some 0⟩ :
      IsAvailable.Config Nat) "CC"
  refine ⟨h.1 rfl, ?_⟩
  exact (h.2.2 ["CCO"] [] [] [] ["CC"] [] []
    [⟨"emolecules", ⟨fun _ => [some 1]⟩⟩] [] [] some 0 5
    (fun _ => some 0)).1

/-- C6: `is_expandable` depends only on the default exact compounds, the
default text-pattern rules, the user compounds and the standardization
function (not on substructure rules, model compounds, databases, exclusion
lists, the exclusivity flag, the pricing threshold or the parser); when
standardization succeeds it is true iff none of those three reduced sources
matches the standardized identifier; and an identifier matching only a
default substructure rule is expandable while also being available. -/
theorem is_expandable_reduced_sources (μ : Type) (cfg : IsAvailable.Config μ)
    (smiles t : String) :
    (∀ (dc u mc₁ mc₂ ec₁ ec₂ : List String) (dr : List RegexPattern)
        (ds₁ ds₂ es₁ es₂ : List (SmartsPattern μ))
        (dbs₁ dbs₂ : List (String × DB)) (std : String → Option String)
        (b₁ b₂ : Bool) (pt₁ pt₂ : Int) (parse₁ parse₂ : String → Option μ),
      IsAvailable.is_expandable
          ⟨dc, dr, ds₁, u, mc₁, dbs₁, ec₁, es₁, std, b₁, pt₁, parse₁⟩ smiles =
        IsAvailable.is_expandable
          ⟨dc, dr, ds₂, u, mc₂, dbs₂, ec₂, es₂, std, b₂, pt₂, parse₂⟩
          smiles) ∧
    (IsAvailable.standardizer cfg smiles = some t →
      (IsAvailable.is_expandable cfg smiles = true ↔
        (AvailabilityFromSmiles.find_matches_impl (σ := SourceId)
            cfg.default_compounds t = [] ∧
          AvailabilityFromRegex.find_matches_impl (σ := SourceId)
            cfg.default_regexes t = [] ∧
          AvailabilityFromSmiles.find_matches_impl (σ := SourceId)
            cfg.user_compounds t = []))) ∧
    (IsAvailable.standardizer cfg smiles = some t →
      AvailabilityFromSmiles.find_matches_impl (σ := SourceId)
          cfg.default_compounds t = [] →
      AvailabilityFromRegex.find_matches_impl (σ := SourceId)
          cfg.default_regexes t = [] →
      AvailabilityFromSmiles.find_matches_impl (σ := SourceId)
          cfg.user_compounds t = [] →
      ∀ (m : AvailabilityMatch SourceId) (ms : List (AvailabilityMatch SourceId)),
        AvailabilityFromSmarts.find_matches_impl cfg.parse cfg.default_smarts
          t = m :: ms →
      IsAvailable.excluded_compounds_pred cfg t = false →
      IsAvailable.excluded_substructures_pred cfg t = false →
      IsAvailable.is_expandable cfg smiles = true ∧
        IsAvailable.isAvailableQuery cfg smiles = true) := by
  have hchar : IsAvailable.standardizer cfg smiles = some t →
      (IsAvailable.is_expandable cfg smiles = true ↔
        (AvailabilityFromSmiles.find_matches_impl (σ := SourceId)
            cfg.default_compounds t = [] ∧
          AvailabilityFromRegex.find_matches_impl (σ := SourceId)
            cfg.default_regexes t = [] ∧
          AvailabilityFromSmiles.find_matches_impl (σ := SourceId)
            cfg.user_compounds t = [])) := by
    intro hstd
    unfold IsAvailable.is_expandable IsAvailable.get_first_availability_match
      SmilesAvailability.first_match
    rw [find_matches_some_eq, hstd]
    simp [AvailabilityCombiner.find_matches_impl,
      IsAvailable.expandable_sources, IsAvailable.from_default_compounds,
      IsAvailable.from_default_regexes, IsAvailable.from_user,
      Option.isNone_iff_eq_none, List.head?_eq_none_iff, List.append_eq_nil,
      and_assoc]
  refine ⟨?_, hchar, ?_⟩
  · intro dc u mc₁ mc₂ ec₁ ec₂ dr ds₁ ds₂ es₁ es₂ dbs₁ dbs₂ std b₁ b₂ pt₁
      pt₂ parse₁ parse₂
    rfl
  · intro hstd hdc hdr hu m ms hm hec hes
    refine ⟨(hchar hstd).mpr ⟨hdc, hdr, hu⟩, ?_⟩
    have hany : ((IsAvailable.default_excluded_sources cfg).any
        fun excluded => excluded t) = false := by
      simp [IsAvailable.default_excluded_sources, hec, hes]
    have h1 : IsAvailable.first_availability_match cfg smiles =
        (AvailabilityCombiner.find_matches_impl
          (IsAvailable.default_excluded_sources cfg)
          (IsAvailable.default_sources cfg)
          (some IsAvailable.key_for_source_instance) t).head? := by
      unfold IsAvailable.first_availability_match
        IsAvailable.get_first_availability_match SmilesAvailability.first_match
      rw [find_matches_some_eq, hstd]
    have h2 : AvailabilityCombiner.find_matches_impl
        (IsAvailable.default_excluded_sources cfg)
        (IsAvailable.default_sources cfg)
        (some IsAvailable.key_for_source_instance) t =
        (IsAvailable.default_sources cfg).flatMap fun source =>
          (source.findMatches t).map
            (addSourceToInfo (some IsAvailable.key_for_source_instance)
              source.id) := by
      unfold AvailabilityCombiner.find_matches_impl
      rw [if_neg (by rw [hany]; exact Bool.false_ne_true)]
    have hds : IsAvailable.default_sources cfg =
        [IsAvailable.from_default_compounds cfg,
         IsAvailable.from_default_regexes cfg] ++
          IsAvailable.from_default_smarts cfg ::
            (IsAvailable.from_user cfg ::
              (if cfg.are_materials_exclusive then []
               else IsAvailable.from_model cfg ::
                 IsAvailable.database_sources cfg)) := rfl
    have h3 : (IsAvailable.first_availability_match cfg smiles).isSome =
        true := by
      rw [h1, h2, hds]
      rw [flatMap_head_of_first_nonnil
        [IsAvailable.from_default_compounds cfg,
         IsAvailable.from_default_regexes cfg]
        (IsAvailable.from_user cfg ::
          (if cfg.are_materials_exclusive then []
           else IsAvailable.from_model cfg :: IsAvailable.database_sources cfg))
        (IsAvailable.from_default_smarts cfg) _
        (addSourceToInfo (some IsAvailable.key_for_source_instance)
          SourceId.defaultSmarts m)
        (ms.map (addSourceToInfo (some IsAvailable.key_for_source_instance)
          SourceId.defaultSmarts)) ?_ ?_]
      · rfl
      · intro a ha
        rw [List.mem_cons, List.mem_singleton] at ha
        rcases ha with h4 | h4 <;> rw [h4]
        · show (AvailabilityFromSmiles.find_matches_impl
            cfg.default_compounds t).map _ = []
          rw [hdc]; rfl
        · show (AvailabilityFromRegex.find_matches_impl
            cfg.default_regexes t).map _ = []
          rw [hdr]; rfl
      · show (AvailabilityFromSmarts.find_matches_impl cfg.parse
          cfg.default_smarts t).map _ = _
        rw [hm]; rfl
    rw [IsAvailable.isAvailableQuery, h3]

/-- Witness for C6: a compound matching only a default substructure rule is
expandable and at the same time available. -/
theorem is_expandable_reduced_sources_witness :
    IsAvailable.is_expandable
        (⟨[], [], [⟨fun _ => true, "ring"⟩], [], [], [], [], [],
            fun _ => some "X", false, 0, fun _ => some 1⟩ :
          IsAvailable.Config Nat) "C1CC1" = true ∧
    IsAvailable.isAvailableQuery
        (⟨[], [], [⟨fun _ => true, "ring"⟩], [], [], [], [], [],
            fun _ => some "X", false, 0, fun _ => some 1⟩ :
          IsAvailable.Config Nat) "C1CC1" = true := by
  exact (is_expandable_reduced_sources Nat
    (⟨[], [], [⟨fun _ => true, "ring"⟩], [], [], [], [], [],
        fun _ => some "X", false, 0, fun _ => some 1⟩ :
      IsAvailable.Config Nat) "C1CC1" "X").2.2 rfl rfl rfl rfl
    { details := "Matching SMARTS \"ring\"." } [] rfl rfl rfl

/-- C5: `get_availability_metadata` maps the winning match's provenance to
exactly one category key — `"common"` for the default compounds, default
regexes, default substructures and user matchers, `"model"` for the
model-specific matcher, the source's own key for the distinguished
`"emolecules"` database, `"database"` for every other configured database,
`"unavailable"` when no match is found — and it raises a hard `ValueError`
(not a normal return) when the provenance is not one of the orchestrator's
constructed matchers. -/
theorem metadata_category_mapping (μ : Type) (cfg : IsAvailable.Config μ)
    (smiles name : String) :
    IsAvailable.source_to_category cfg SourceId.defaultCompounds =
        Except.ok "common" ∧
    IsAvailable.source_to_category cfg SourceId.defaultRegexes =
        Except.ok "common" ∧
    IsAvailable.source_to_category cfg SourceId.defaultSmarts =
        Except.ok "common" ∧
    IsAvailable.source_to_category cfg SourceId.user = Except.ok "common" ∧
    IsAvailable.source_to_category cfg SourceId.model = Except.ok "model" ∧
    ((cfg.databases.map Prod.fst).contains name = true →
      IsAvailable.source_to_category cfg (SourceId.database name) =
        Except.ok (if name == "emolecules" then name else "database")) ∧
    ((cfg.databases.map Prod.fst).contains name = false →
      IsAvailable.source_to_category cfg (SourceId.database name) =
        Except.error QueryError.valueError) ∧
    IsAvailable.source_to_category cfg SourceId.excludedCompounds =
        Except.error QueryError.valueError ∧
    IsAvailable.source_to_category cfg SourceId.excludedSubstructures =
        Except.error QueryError.valueError ∧
    (IsAvailable.first_availability_match cfg smiles = none →
      IsAvailable.get_availability_metadata cfg smiles =
        Except.ok ("#ce4e04", "Not able to find a synthetic path")) ∧
    (∀ (m : AvailabilityMatch SourceId) (src : SourceId) (key : String)
        (md : String × String),
      IsAvailable.first_availability_match cfg smiles = some m →
      m.info.lookup IsAvailable.key_for_source_instance = some src →
      IsAvailable.source_to_category cfg src = Except.ok key →
      AVAILABILITY_METADATA.lookup key = some md →
      IsAvailable.get_availability_metadata cfg smiles = Except.ok md) ∧
    (∀ (m : AvailabilityMatch SourceId) (src : SourceId),
      IsAvailable.first_availability_match cfg smiles = some m →
      m.info.lookup IsAvailable.key_for_source_instance = some src →
      IsAvailable.source_to_category cfg src =
        Except.error QueryError.valueError →
      IsAvailable.get_availability_metadata cfg smiles =
        Except.error QueryError.valueError) := by
  have hred : IsAvailable.source_to_category cfg (SourceId.database name) =
      if (cfg.databases.map Prod.fst).contains name then
        Except.ok (if name == "emolecules" then name else "database")
      else Except.error QueryError.valueError := rfl
  refine ⟨rfl, rfl, rfl, rfl, rfl, ?_, ?_, rfl, rfl, ?_, ?_, ?_⟩
  · intro h
    rw [hred, if_pos h]
  · intro h
    rw [hred, if_neg (by rw [h]; exact Bool.false_ne_true)]
  · exact get_availability_metadata_of_none μ cfg smiles
  · intro m src key md h1 h2 h3 h4
    exact get_availability_metadata_of_ok μ cfg smiles m src key md h1 h2 h3 h4
  · intro m src h1 h2 h3
    exact get_availability_metadata_of_error μ cfg smiles m src
      QueryError.valueError h1 h2 h3

/-- Witness for C5: an orchestrator with the `emolecules` database and a
`zinc` database categorizes the distinguished database under its own key,
the other one as `"database"`, an unknown database name and the exclusion
matchers as errors; a query with no match gets the `"unavailable"` metadata
and a query matching a default compound gets the `"common"` metadata. -/
theorem metadata_category_mapping_witness :
    IsAvailable.source_to_category
        (⟨[], [], [], [], [], [⟨"emolecules", ⟨fun _ => []⟩⟩,
            ⟨"zinc", ⟨fun _ => []⟩⟩], [], [], fun _ => some "X", false, 0,
            fun _ => none⟩ : IsAvailable.Config Nat)
        (SourceId.database "emolecules") = Except.ok "emolecules" ∧
    IsAvailable.source_to_category
        (⟨[], [], [], [], [], [⟨"emolecules", ⟨fun _ => []⟩⟩,
            ⟨"zinc", ⟨fun _ => []⟩⟩], [], [], fun _ => some "X", false, 0,
            fun _ => none⟩ : IsAvailable.Config Nat)
        (SourceId.database "zinc") = Except.ok "database" ∧
    IsAvailable.source_to_category
        (⟨[], [], [], [], [], [⟨"emolecules", ⟨fun _ => []⟩⟩,
            ⟨"zinc", ⟨fun _ => []⟩⟩], [], [], fun _ => some "X", false, 0,
            fun _ => none⟩ : IsAvailable.Config Nat)
        (SourceId.database "missing") = Except.error QueryError.valueError ∧
    IsAvailable.get_availability_metadata
        (⟨[], [], [], [], [], [⟨"emolecules", ⟨fun _ => []⟩⟩,
            ⟨"zinc", ⟨fun _ => []⟩⟩], [], [], fun _ => some "X", false, 0,
            fun _ => none⟩ : IsAvailable.Config Nat) "C" =
      Except.ok ("#ce4e04", "Not able to find a synthetic path") ∧
    IsAvailable.get_availability_metadata
        (⟨["X"], [], [], [], [], [], [], [], fun _ => some "X", false, 0,
            fun _ => none⟩ : IsAvailable.Config Nat) "C" =
      Except.ok ("#002d9c", "Common molecule available by default") := by
  have h := metadata_category_mapping Nat
    (⟨[], [], [], [], [], [⟨"emolecules", ⟨fun _ => []⟩⟩,
        ⟨"zinc", ⟨fun _ => []⟩⟩], [], [], fun _ => some "X", false, 0,
        fun _ => none⟩ : IsAvailable.Config Nat) "C" "emolecules"
  have h2 := metadata_category_mapping Nat
    (⟨[], [], [], [], [], [⟨"emolecules", ⟨fun _ => []⟩⟩,
        ⟨"zinc", ⟨fun _ => []⟩⟩], [], [], fun _ => some "X", false, 0,
        fun _ => none⟩ : IsAvailable.Config Nat) "C" "zinc"
  have h3 := metadata_category_mapping Nat
    (⟨[], [], [], [], [], [⟨"emolecules", ⟨fun _ => []⟩⟩,
        ⟨"zinc", ⟨fun _ => []⟩⟩], [], [], fun _ => some "X", false, 0,
        fun _ => none⟩ : IsAvailable.Config Nat) "C" "missing"
  have h4 := metadata_category_mapping Nat
    (⟨["X"], [], [], [], [], [], [], [], fun _ => some "X", false, 0,
        fun _ => none⟩ : IsAvailable.Config Nat) "C" "missing"
  refine ⟨h.2.2.2.2.2.1 rfl, h2.2.2.2.2.2.1 rfl, h3.2.2.2.2.2.2.1 rfl,
    h.2.2.2.2.2.2.2.2.2.1 rfl, ?_⟩
  exact h4.2.2.2.2.2.2.2.2.2.2.1
    { details := "Matching exact SMILES, \"X\".",
      info := [(IsAvailable.key_for_source_instance,
        SourceId.defaultCompounds)] }
    SourceId.defaultCompounds "common"
    ("#002d9c", "Common molecule available by default") rfl rfl rfl rfl

end RxnAvailability
